import Mathlib

/-!
Verification of the Elite-Signal-Hunter audio/DSP core against its
natural-language specification.

The Python sources are shallowly embedded:
  * `src/dsp.py` (`SignalProcessor`) over `ℝ` (numpy float arrays are
    idealised as real-valued lists; `np.std` involves a square root, hence
    the real field and the `noncomputable` markers);
  * `src/audio_engine.py` (resampler, black-box ring buffer) over `ℚ`/`ℤ`
    (float arithmetic on these paths is idealised as exact rationals);
  * the identification loop of `src/main.py` over `ℚ`.

Python exception potential is modelled with `Except`: a method that can
raise returns `Except DSPError …`; a path that silently returns maps to
`Except.ok` with the unchanged state.
-/

/-- Python `int(x)` on a float: truncation toward zero. -/
def pyInt (q : ℚ) : ℤ := if 0 ≤ q then ⌊q⌋ else ⌈q⌉

/-! ## `src/dsp.py` — `SignalProcessor` -/

/-- Error vocabulary for calibration.  `shapeMismatch` is the error the
spec names; the Python code never raises it.  `valueError` is numpy's
plain `ValueError`, which `np.array(magnitude_buffer)` raises on a ragged
(inhomogeneous) nested list under numpy ≥ 1.24, before any shape check
runs. -/
inductive DSPError where
  | shapeMismatch
  | valueError
deriving DecidableEq, Repr

/-- State of `SignalProcessor` (`src/dsp.py`, lines 46-55).  The two tuning
attributes are ordinary mutable fields in Python, hence fields here; the
constructor gives them their default values. -/
structure SignalProcessor where
  num_bins : ℕ
  noise_mean : List ℝ
  noise_std : List ℝ
  is_calibrated : Bool
  spectral_floor : ℝ
  oversubtraction : ℝ

/-- Constructor `SignalProcessor.__init__(fft_size)` (`src/dsp.py`, lines 47-55):
`num_bins = fft_size // 2 + 1`, mean `np.zeros`, std `np.ones`,
uncalibrated, `spectral_floor = 0.1`, `oversubtraction = 1.5`. -/
noncomputable def SignalProcessor.init (fft_size : ℕ) : SignalProcessor :=
  { num_bins := fft_size / 2 + 1
    noise_mean := List.replicate (fft_size / 2 + 1) 0
    noise_std := List.replicate (fft_size / 2 + 1) 1
    is_calibrated := false
    spectral_floor := 1 / 10
    oversubtraction := 3 / 2 }

/-- Column count of `np.array(buffer)` when it is 2-D: length of the first
row (`data.shape[1]`). -/
def npCols (buf : List (List ℝ)) : ℕ := (buf.headD []).length

/-- Whether all rows of the nested list have one common length, i.e.
whether `np.array(buffer)` succeeds in building a rectangular array at
all: on a ragged nested list `np.array` raises `ValueError`
(numpy ≥ 1.24) before any shape inspection. -/
def rowsAligned (buf : List (List ℝ)) : Bool :=
  buf.all (fun r => r.length == npCols buf)

/-- Predicate `np.array(buffer).ndim == 2` for a list of rows that
`np.array` accepts (uniform row lengths): the list is non-empty — an
empty list produces shape `(0,)`, ndim 1.  (A ragged list never reaches
an ndim test: `np.array` itself raises, which `capture_noise_profile`
models before consulting this predicate.) -/
def ndim2 (buf : List (List ℝ)) : Bool :=
  !buf.isEmpty && buf.all (fun r => r.length == npCols buf)

/-- Embedding of `np.mean(data, axis=0)`: per-column arithmetic mean. -/
noncomputable def npMean (buf : List (List ℝ)) : List ℝ :=
  (List.range (npCols buf)).map
    (fun j => (buf.map (fun r => r.getD j 0)).sum / (buf.length : ℝ))

/-- Embedding of `np.std(data, axis=0)` (population std, `ddof = 0`): per-column square
root of the mean squared deviation from the column mean. -/
noncomputable def npStd (buf : List (List ℝ)) : List ℝ :=
  (List.range (npCols buf)).map
    (fun j =>
      let m := (buf.map (fun r => r.getD j 0)).sum / (buf.length : ℝ)
      Real.sqrt ((buf.map (fun r => (r.getD j 0 - m) ^ 2)).sum / (buf.length : ℝ)))

/-- Method `SignalProcessor.capture_noise_profile` (`src/dsp.py`, lines 57-74).
First `np.array(buffer)` runs (line 65): on a ragged nested list it
raises a plain `ValueError` (numpy ≥ 1.24), which escapes the method —
there is no try/except.  On a rectangular array, if it is not 2-D or its
second dimension differs from `num_bins`, the method returns silently
(`return`), rendered as `Except.ok` with the state unchanged.  Otherwise
the noise model is recomputed: `noise_mean = np.mean(data, axis=0)`,
`noise_std = np.maximum(np.std(data, axis=0), 1e-9)`, and
`is_calibrated = True`. -/
noncomputable def SignalProcessor.capture_noise_profile
    (p : SignalProcessor) (buf : List (List ℝ)) :
    Except DSPError SignalProcessor :=
  if !(rowsAligned buf) then
    Except.error DSPError.valueError
  else if !(ndim2 buf) || npCols buf != p.num_bins then
    Except.ok p
  else
    Except.ok
      { p with
        noise_mean := npMean buf
        noise_std := (npStd buf).map (fun s => max s (1 / 1000000000))
        is_calibrated := true }

/-- Method `SignalProcessor.apply_spectral_gate` (`src/dsp.py`, lines 76-101):
uncalibrated → input unchanged; otherwise per bin
`max(x - noise_mean*oversubtraction, x*spectral_floor)`. -/
noncomputable def SignalProcessor.apply_spectral_gate
    (p : SignalProcessor) (x : List ℝ) : List ℝ :=
  if p.is_calibrated then
    let subtraction_amount := p.noise_mean.map (fun m => m * p.oversubtraction)
    let subtracted := List.zipWith (fun v s => v - s) x subtraction_amount
    let floor := x.map (fun v => v * p.spectral_floor)
    List.zipWith max subtracted floor
  else
    x

/-- Per-bin z-scores `(x - noise_mean) / noise_std`
(`src/dsp.py`, line 118). -/
noncomputable def SignalProcessor.zScores
    (p : SignalProcessor) (x : List ℝ) : List ℝ :=
  List.zipWith (fun d s => d / s)
    (List.zipWith (fun v m => v - m) x p.noise_mean) p.noise_std

/-- Embedding of `np.max` of a non-empty list (0 as a junk value on `[]`, where numpy
would raise). -/
noncomputable def npMax : List ℝ → ℝ
  | [] => 0
  | a :: t => t.foldl max a

/-- Method `SignalProcessor.detect_anomaly` (`src/dsp.py`, lines 103-123):
`False` when uncalibrated, otherwise `max z_scores > threshold`
(default threshold in the source: 3.0). -/
noncomputable def SignalProcessor.detect_anomaly
    (p : SignalProcessor) (x : List ℝ) (threshold : ℝ) : Prop :=
  if p.is_calibrated then npMax (p.zScores x) > threshold else False

/-- Invariant of the spec: every entry of the standard-deviation vector is
at least `1e-9`. -/
def stdPositive (p : SignalProcessor) : Prop :=
  ∀ s ∈ p.noise_std, (1 / 1000000000 : ℝ) ≤ s

/-! ## `src/audio_engine.py` — resampler (lines 119-168) -/

/-- Embedding of `np.linspace(0, stop, num)`: `num` evenly spaced points from `0` to
`stop` inclusive (`[]` for `num = 0`, `[0]` for `num = 1`). -/
def linspace (stop : ℚ) (num : ℕ) : List ℚ :=
  if num ≤ 1 then (List.range num).map (fun _ => 0)
  else (List.range num).map
    (fun (i : ℕ) => stop * (i : ℚ) / ((num : ℚ) - 1))

/-- Embedding of `np.interp(t, x_old, fp)` specialised to the grid the resampler always
uses, `x_old = np.linspace(0, n-1, n) = [0, 1, …, n-1]` with
`n = fp.length`: clamp below 0 and above `n-1`, linear interpolation
between consecutive integer grid points otherwise. -/
def interp1 (fp : List ℚ) (t : ℚ) : ℚ :=
  if t ≤ 0 then fp.headD 0
  else if (fp.length : ℚ) - 1 ≤ t then fp.getLastD 0
  else
    let k := (⌊t⌋).toNat
    fp.getD k 0 + (t - (⌊t⌋ : ℚ)) * (fp.getD (k + 1) 0 - fp.getD k 0)

/-- Embedding of `np.clip(q, -32768, 32767)` (`src/audio_engine.py`, line 165). -/
def clip16 (q : ℚ) : ℚ := min (max q (-32768)) 32767

/-- Wraparound of a two's-complement 16-bit store: reduce into
`[-32768, 32767]` modulo `2^16`. -/
def wrapInt16 (z : ℤ) : ℤ := (z + 32768) % 65536 - 32768

/-- Embedding of `astype(np.int16)` on a float value: truncate toward zero, then wrap
modulo `2^16` (C-style narrowing cast). -/
def astypeInt16 (q : ℚ) : ℤ := wrapInt16 (pyInt q)

/-- Channel `ch` of the `(num_frames, channels)` reshape of the
interleaved buffer (`src/audio_engine.py`, line 142), as rationals. -/
def channelColumn (channels num_frames : ℕ) (input : List ℤ) (ch : ℕ) :
    List ℚ :=
  (List.range num_frames).map (fun i => ((input.getD (i * channels + ch) 0 : ℤ) : ℚ))

/-- The interpolation branch of the pass-through loop
(`src/audio_engine.py`, lines 129-168): linear-interpolation resampling of
an interleaved int16 buffer, followed by `np.clip` to the int16 range and
an `astype(np.int16)` cast.  Multi-channel output is produced frame-major
(the flatten of the `(num_output_frames, channels)` array). -/
def resampleInterp (channels : ℕ) (ratio : ℚ) (input : List ℤ) : List ℤ :=
  let input_len := input.length
  let output_len := (pyInt ((input_len : ℚ) * ratio)).toNat
  let floats : List ℚ :=
    if 1 < channels then
      let num_frames := input_len / channels
      let num_output_frames := (pyInt ((num_frames : ℚ) * ratio)).toNat
      let x_new := linspace ((num_frames : ℚ) - 1) num_output_frames
      (x_new.map (fun t =>
        (List.range channels).map (fun ch =>
          interp1 (channelColumn channels num_frames input ch) t))).flatten
    else
      let x_new := linspace ((input_len : ℚ) - 1) output_len
      x_new.map (interp1 (input.map (fun z => (z : ℚ))))
  floats.map (fun q => astypeInt16 (clip16 q))

/-- One iteration of step B of the critical audio loop
(`src/audio_engine.py`, lines 125-168): ratio exactly `1.0` writes the raw
captured frame unchanged; any other ratio goes through the interpolation
resampler. -/
def processFrame (channels : ℕ) (ratio : ℚ) (raw : List ℤ) : List ℤ :=
  if ratio = 1 then raw else resampleInterp channels ratio raw

/-! ## `src/audio_engine.py` — black-box ring buffer -/

/-- The engine configuration fields the black-box buffer depends on
(`src/audio_engine.py`, lines 33-41): defaults `input_rate = 48000`,
`buffer_size = 4096`, `black_box_seconds = 60`. -/
structure EngineCfg where
  input_rate : ℕ
  buffer_size : ℕ
  black_box_seconds : ℕ

/-- The engine's default configuration (`__init__`). -/
def defaultCfg : EngineCfg :=
  { input_rate := 48000, buffer_size := 4096, black_box_seconds := 60 }

/-- Trim bound `max_chunks = int(black_box_seconds * (input_rate / buffer_size))`
(`src/audio_engine.py`, lines 210-211; `/` is Python float division,
idealised as exact rational division). -/
def maxChunks (cfg : EngineCfg) : ℕ :=
  (pyInt ((cfg.black_box_seconds : ℚ) *
    ((cfg.input_rate : ℚ) / (cfg.buffer_size : ℚ)))).toNat

/-- One black-box append (`src/audio_engine.py`, lines 207-213): push onto
`collections.deque(maxlen=60)` (which keeps only the 60 most recent
entries), then the explicit trim `if len(buffer) > max_chunks: popleft()`. -/
def blackBoxAppend (cfg : EngineCfg) (buf : List α) (a : α) : List α :=
  let b := buf ++ [a]
  let b1 := b.drop (b.length - 60)
  if maxChunks cfg < b1.length then b1.drop 1 else b1

/-- A whole sequence of black-box appends, oldest first. -/
def blackBoxAppendAll (cfg : EngineCfg) (buf : List α) (l : List α) : List α :=
  l.foldl (blackBoxAppend cfg) buf

/-- Capacity actually enforced by the code: the deque's hard `maxlen=60`
combined with the explicit `max_chunks` trim. -/
def bbCapacity (cfg : EngineCfg) : ℕ := min 60 (maxChunks cfg)

/-- Capacity stated by the spec:
`ceil(duration_seconds * sample_rate / frame_size)`. -/
def specCapacityCeil (cfg : EngineCfg) : ℕ :=
  (⌈((cfg.black_box_seconds * cfg.input_rate : ℕ) : ℚ) / (cfg.buffer_size : ℚ)⌉).toNat

/-! ## `src/main.py` — `ScienceStation.run_identification` (lines 1616-1646)

The loop scores each stored template against the live signal (cosine
similarity of non-negative spectra; templates whose shape cannot align or
whose norm is degenerate are skipped and never scored).  The accumulation
over the scored `(name, score)` pairs is embedded here with the numeric
scores abstracted, since that is the part the claims are about. -/

/-- One iteration of the template loop: `if score > highest_score:
highest_score = score; best_match = name` (strict comparison, so an
earlier best is kept on ties). -/
def identStep (acc : String × ℚ) (t : String × ℚ) : String × ℚ :=
  if t.2 > acc.2 then t else acc

/-- The whole loop, started from `best_match = "---"`,
`highest_score = 0` (`src/main.py`, lines 1590-1591). -/
def run_identification (templates : List (String × ℚ)) : String × ℚ :=
  templates.foldl identStep ("---", 0)

/-- Default identification threshold (`src/main.py`, line 283). -/
def identification_threshold : ℚ := 85 / 100

/-- The report step (`src/main.py`, lines 1643-1646): a positive
identification (`some name`) exactly when the kept best score strictly
exceeds the threshold, otherwise the unknown-signal report (`none`). -/
def identReport (threshold : ℚ) (templates : List (String × ℚ)) :
    Option String :=
  let best := run_identification templates
  if best.2 > threshold then some best.1 else none

/-! ## Helper lemmas: spectral gate -/

lemma gate_length (p : SignalProcessor) (x : List ℝ)
    (hcal : p.is_calibrated = true) (hlen : x.length = p.noise_mean.length) :
    (p.apply_spectral_gate x).length = x.length := by
  simp [SignalProcessor.apply_spectral_gate, hcal, ← hlen]

lemma gate_getD (p : SignalProcessor) (x : List ℝ)
    (hcal : p.is_calibrated = true) (hlen : x.length = p.noise_mean.length)
    (i : ℕ) (hi : i < x.length) :
    (p.apply_spectral_gate x).getD i 0
      = max (x.getD i 0 - p.noise_mean.getD i 0 * p.oversubtraction)
          (x.getD i 0 * p.spectral_floor) := by
  have hg : i < (p.apply_spectral_gate x).length := by
    rw [gate_length p x hcal hlen]; exact hi
  have him : i < p.noise_mean.length := hlen ▸ hi
  rw [List.getD_eq_getElem _ _ hg, List.getD_eq_getElem _ _ hi,
    List.getD_eq_getElem _ _ him]
  simp [SignalProcessor.apply_spectral_gate, hcal]

lemma gate_ge_floor (p : SignalProcessor) (x : List ℝ)
    (hcal : p.is_calibrated = true) (hlen : x.length = p.noise_mean.length)
    (i : ℕ) (hi : i < x.length) :
    x.getD i 0 * p.spectral_floor ≤ (p.apply_spectral_gate x).getD i 0 := by
  rw [gate_getD p x hcal hlen i hi]
  exact le_max_right _ _

lemma gate_le_self (p : SignalProcessor) (x : List ℝ)
    (hcal : p.is_calibrated = true)
    (hmean : ∀ m ∈ p.noise_mean, 0 ≤ m)
    (hos : 0 ≤ p.oversubtraction)
    (hsf1 : p.spectral_floor ≤ 1)
    (hx : ∀ v ∈ x, 0 ≤ v)
    (hlen : x.length = p.noise_mean.length)
    (i : ℕ) (hi : i < x.length) :
    (p.apply_spectral_gate x).getD i 0 ≤ x.getD i 0 := by
  rw [gate_getD p x hcal hlen i hi]
  have him : i < p.noise_mean.length := hlen ▸ hi
  have hm : 0 ≤ p.noise_mean.getD i 0 := by
    rw [List.getD_eq_getElem _ _ him]
    exact hmean _ (List.getElem_mem him)
  have hxi : 0 ≤ x.getD i 0 := by
    rw [List.getD_eq_getElem _ _ hi]
    exact hx _ (List.getElem_mem hi)
  apply max_le
  · nlinarith
  · exact mul_le_of_le_one_right hxi hsf1

lemma gate_nonneg (p : SignalProcessor) (x : List ℝ)
    (hcal : p.is_calibrated = true)
    (hsf0 : 0 ≤ p.spectral_floor)
    (hx : ∀ v ∈ x, 0 ≤ v)
    (hlen : x.length = p.noise_mean.length) :
    ∀ v ∈ p.apply_spectral_gate x, 0 ≤ v := by
  intro v hv
  obtain ⟨i, hig, hvi⟩ := List.mem_iff_getElem.mp hv
  have hi : i < x.length := by
    rw [← gate_length p x hcal hlen]; exact hig
  have hxi : 0 ≤ x.getD i 0 := by
    rw [List.getD_eq_getElem _ _ hi]
    exact hx _ (List.getElem_mem hi)
  have h1 : x.getD i 0 * p.spectral_floor ≤ (p.apply_spectral_gate x).getD i 0 :=
    gate_ge_floor p x hcal hlen i hi
  have h2 : (p.apply_spectral_gate x).getD i 0 = v := by
    rw [List.getD_eq_getElem _ _ hig, hvi]
  nlinarith

/-- C1: for every calibrated processor (whose noise mean comes from
magnitude data, hence is non-negative, and whose tuning constants satisfy
`0 ≤ oversubtraction` and `0 ≤ spectral_floor ≤ 1`, as the defaults 1.5
and 0.1 do) and every non-negative spectrum of the bin count, the gate
returns `max(x - noiseMean*oversubtraction, x*spectralFloor)` per bin,
hence is bounded below by `x*spectralFloor` and above by `x`
elementwise. -/
theorem spectral_gate_formula_and_bounds
    (p : SignalProcessor) (x : List ℝ)
    (hcal : p.is_calibrated = true)
    (hmean : ∀ m ∈ p.noise_mean, 0 ≤ m)
    (hos : 0 ≤ p.oversubtraction)
    (hsf0 : 0 ≤ p.spectral_floor) (hsf1 : p.spectral_floor ≤ 1)
    (hx : ∀ v ∈ x, 0 ≤ v)
    (hlen : x.length = p.noise_mean.length) :
    (p.apply_spectral_gate x).length = x.length ∧
    ∀ i, i < x.length →
      (p.apply_spectral_gate x).getD i 0
          = max (x.getD i 0 - p.noise_mean.getD i 0 * p.oversubtraction)
              (x.getD i 0 * p.spectral_floor) ∧
      x.getD i 0 * p.spectral_floor ≤ (p.apply_spectral_gate x).getD i 0 ∧
      (p.apply_spectral_gate x).getD i 0 ≤ x.getD i 0 := by
  refine ⟨gate_length p x hcal hlen, fun i hi => ⟨gate_getD p x hcal hlen i hi,
    gate_ge_floor p x hcal hlen i hi,
    gate_le_self p x hcal hmean hos hsf1 hx hlen i hi⟩⟩

/-- Witness for C1 at the calibrated processor with `noise_mean = [0, 1]`
and the spectrum `[2, 3]`. -/
theorem spectral_gate_formula_and_bounds_witness :
    ((SignalProcessor.mk 2 [0, 1] [1, 1] true (1 / 10) (3 / 2)).is_calibrated
        = true) ∧
    (∀ m ∈ [(0 : ℝ), 1], 0 ≤ m) ∧ (∀ v ∈ [(2 : ℝ), 3], 0 ≤ v) ∧
    (((SignalProcessor.mk 2 [0, 1] [1, 1] true (1 / 10)
          (3 / 2)).apply_spectral_gate [2, 3]).length
        = ([(2 : ℝ), 3]).length ∧
      ∀ i, i < ([(2 : ℝ), 3]).length →
        ((SignalProcessor.mk 2 [0, 1] [1, 1] true (1 / 10)
              (3 / 2)).apply_spectral_gate [2, 3]).getD i 0
            = max (([(2 : ℝ), 3]).getD i 0 - ([(0 : ℝ), 1]).getD i 0 * (3 / 2))
                (([(2 : ℝ), 3]).getD i 0 * (1 / 10)) ∧
          ([(2 : ℝ), 3]).getD i 0 * (1 / 10)
            ≤ ((SignalProcessor.mk 2 [0, 1] [1, 1] true (1 / 10)
                  (3 / 2)).apply_spectral_gate [2, 3]).getD i 0 ∧
          ((SignalProcessor.mk 2 [0, 1] [1, 1] true (1 / 10)
                (3 / 2)).apply_spectral_gate [2, 3]).getD i 0
            ≤ ([(2 : ℝ), 3]).getD i 0) :=
  ⟨rfl, by intro m hm; fin_cases hm <;> norm_num,
    by intro v hv; fin_cases hv <;> norm_num,
    spectral_gate_formula_and_bounds
      (SignalProcessor.mk 2 [0, 1] [1, 1] true (1 / 10) (3 / 2)) [2, 3] rfl
      (by intro m hm; fin_cases hm <;> norm_num) (by norm_num) (by norm_num)
      (by norm_num) (by intro v hv; fin_cases hv <;> norm_num) rfl⟩

/-! ## Helper lemmas: calibration branches -/

lemma capture_ragged (p : SignalProcessor) (buf : List (List ℝ))
    (h : rowsAligned buf = false) :
    p.capture_noise_profile buf = Except.error DSPError.valueError := by
  simp [SignalProcessor.capture_noise_profile, h]

lemma capture_reject (p : SignalProcessor) (buf : List (List ℝ))
    (ha : rowsAligned buf = true)
    (h : ndim2 buf = false ∨ npCols buf ≠ p.num_bins) :
    p.capture_noise_profile buf = Except.ok p := by
  have hc : (!(ndim2 buf) || npCols buf != p.num_bins) = true := by
    rcases h with h | h
    · simp [h]
    · simp [h]
  simp [SignalProcessor.capture_noise_profile, ha, hc]

lemma capture_accept (p : SignalProcessor) (buf : List (List ℝ))
    (h1 : ndim2 buf = true) (h2 : npCols buf = p.num_bins) :
    p.capture_noise_profile buf
      = Except.ok
          { p with
            noise_mean := npMean buf
            noise_std := (npStd buf).map (fun s => max s (1 / 1000000000))
            is_calibrated := true } := by
  have ha : rowsAligned buf = true := by
    have h1' : (!buf.isEmpty && rowsAligned buf) = true := h1
    exact ((Bool.and_eq_true _ _).mp h1').2
  simp [SignalProcessor.capture_noise_profile, ha, h1, h2]

/-- C3 (amended): for every collection of calibration frames that do not
all have the processor's bin count, the call never fails with
`ShapeMismatch`.  If the frames are uniform (so `np.array` builds a 2-D
array of a wrong width), the call returns silently with the processor
unchanged; if they are ragged, `np.array` itself raises a plain
`ValueError` (numpy ≥ 1.24) that the method does not catch — an error,
but not the spec's `ShapeMismatch`, and not local to the call. -/
theorem capture_shape_mismatch_silent (p : SignalProcessor)
    (buf : List (List ℝ))
    (h : ∃ f ∈ buf, f.length ≠ p.num_bins) :
    p.capture_noise_profile buf ≠ Except.error DSPError.shapeMismatch ∧
    (rowsAligned buf = true → p.capture_noise_profile buf = Except.ok p) ∧
    (rowsAligned buf = false →
      p.capture_noise_profile buf = Except.error DSPError.valueError) := by
  obtain ⟨f, hf, hfne⟩ := h
  cases hra : rowsAligned buf
  · have herr := capture_ragged p buf hra
    refine ⟨by rw [herr]; simp, ?_, fun _ => herr⟩
    intro htrue
    simp at htrue
  · have hcols : npCols buf ≠ p.num_bins := by
      intro hc
      apply hfne
      have hall := List.all_eq_true.mp hra f hf
      have hfl : f.length = npCols buf := by simpa using hall
      rw [hfl, hc]
    have hok := capture_reject p buf hra (Or.inr hcols)
    refine ⟨by rw [hok]; simp, fun _ => hok, ?_⟩
    intro hfalse
    simp at hfalse

/-- Counterexample to C3 as stated: a processor with 3 bins
(`fft_size = 4`) given one frame of 2 bins.  The spec says the call fails
with `ShapeMismatch`; the code's `capture_noise_profile` hits the early
`return` and yields no error at all — the call returns silently with the
processor unchanged (and still uncalibrated). -/
theorem capture_shape_mismatch_counterexample :
    (SignalProcessor.init 4).num_bins = 3 ∧ npCols [[1, 2]] = 2 ∧
    (SignalProcessor.init 4).capture_noise_profile [[1, 2]]
      = Except.ok (SignalProcessor.init 4) ∧
    (SignalProcessor.init 4).is_calibrated = false :=
  ⟨rfl, rfl, capture_reject _ _ (by decide) (Or.inr (by decide)), rfl⟩

/-- Witness for C3 (amended) at a processor with 3 bins and a uniform
frame list of 1 bin. -/
theorem capture_shape_mismatch_silent_witness :
    (∃ f ∈ [[(5 : ℝ)]], f.length ≠ (SignalProcessor.init 4).num_bins) ∧
    ((SignalProcessor.init 4).capture_noise_profile [[5]]
        ≠ Except.error DSPError.shapeMismatch ∧
      (rowsAligned [[(5 : ℝ)]] = true →
        (SignalProcessor.init 4).capture_noise_profile [[5]]
          = Except.ok (SignalProcessor.init 4)) ∧
      (rowsAligned [[(5 : ℝ)]] = false →
        (SignalProcessor.init 4).capture_noise_profile [[5]]
          = Except.error DSPError.valueError)) :=
  ⟨⟨[5], by simp, by decide⟩,
    capture_shape_mismatch_silent _ _ ⟨[5], by simp, by decide⟩⟩

/-- C10: a rejected calibration is atomic — the early `return` happens
before any assignment, so the noise mean, the noise std and the
calibrated flag are all exactly as before the call. -/
theorem capture_reject_atomicity (p : SignalProcessor)
    (buf : List (List ℝ))
    (h : ndim2 buf = false ∨ npCols buf ≠ p.num_bins) :
    ∀ q, p.capture_noise_profile buf = Except.ok q →
      q.noise_mean = p.noise_mean ∧ q.noise_std = p.noise_std ∧
      q.is_calibrated = p.is_calibrated := by
  intro q hq
  cases hra : rowsAligned buf
  · rw [capture_ragged p buf hra] at hq
    cases hq
  · rw [capture_reject p buf hra h] at hq
    injection hq with h'
    rw [← h']
    exact ⟨rfl, rfl, rfl⟩

/-- Witness for C10 at a processor with 4 bins (`fft_size = 6`) and a
frame list of 3 bins. -/
theorem capture_reject_atomicity_witness :
    (ndim2 [[(1 : ℝ), 2, 3]] = false ∨
      npCols [[(1 : ℝ), 2, 3]] ≠ (SignalProcessor.init 6).num_bins) ∧
    ∀ q, (SignalProcessor.init 6).capture_noise_profile [[1, 2, 3]]
        = Except.ok q →
      q.noise_mean = (SignalProcessor.init 6).noise_mean ∧
      q.noise_std = (SignalProcessor.init 6).noise_std ∧
      q.is_calibrated = (SignalProcessor.init 6).is_calibrated :=
  ⟨Or.inr (by decide), capture_reject_atomicity _ _ (Or.inr (by decide))⟩

/-- C9: the std-floor invariant — every entry of the noise-std vector is
at least `1e-9` after construction, and it is preserved by every
calibration call, rejected (state unchanged) or successful (each entry is
`max(·, 1e-9)`).  The remaining operations (`apply_spectral_gate`,
`detect_anomaly`) do not touch the noise model. -/
theorem noise_std_floor_invariant (fft : ℕ) (p : SignalProcessor)
    (buf : List (List ℝ)) (q : SignalProcessor)
    (hp : stdPositive p) (hq : p.capture_noise_profile buf = Except.ok q) :
    stdPositive (SignalProcessor.init fft) ∧ stdPositive q := by
  constructor
  · intro s hs
    simp [SignalProcessor.init, List.mem_replicate] at hs
    rw [hs]; norm_num
  · cases hra : rowsAligned buf
    · rw [capture_ragged p buf hra] at hq
      cases hq
    by_cases hc : ndim2 buf = false ∨ npCols buf ≠ p.num_bins
    · rw [capture_reject p buf hra hc] at hq
      injection hq with h'
      rw [← h']; exact hp
    · push_neg at hc
      obtain ⟨h1, h2⟩ := hc
      have h1' : ndim2 buf = true := by
        cases hb : ndim2 buf
        · exact absurd hb h1
        · rfl
      rw [capture_accept p buf h1' h2] at hq
      injection hq with h'
      rw [← h']
      intro s hs
      simp only [List.mem_map] at hs
      obtain ⟨s', _, rfl⟩ := hs
      exact le_max_right _ _

/-- Witness for C9: a successful calibration of a 2-bin processor
(`fft_size = 2`) with the single frame `[1, 2]`. -/
theorem noise_std_floor_invariant_witness :
    stdPositive (SignalProcessor.init 2) ∧
    (stdPositive (SignalProcessor.init 3) ∧
      stdPositive (SignalProcessor.mk 2 (npMean [[1, 2]])
        ((npStd [[1, 2]]).map (fun s => max s (1 / 1000000000))) true
        (1 / 10) (3 / 2))) :=
  ⟨by intro s hs; simp [SignalProcessor.init, List.mem_replicate] at hs;
      rw [hs]; norm_num,
    noise_std_floor_invariant 3 (SignalProcessor.init 2) [[1, 2]] _
      (by intro s hs; simp [SignalProcessor.init, List.mem_replicate] at hs;
          rw [hs]; norm_num)
      rfl⟩

/-! ## Helper lemmas: black-box ring buffer -/

lemma blackBoxAppend_of_le {α : Type} (cfg : EngineCfg) (buf : List α)
    (a : α) (h : buf.length ≤ bbCapacity cfg) :
    blackBoxAppend cfg buf a
      = (buf ++ [a]).drop (buf.length + 1 - bbCapacity cfg) := by
  have hK : bbCapacity cfg = min 60 (maxChunks cfg) := rfl
  have hlen : (buf ++ [a]).length = buf.length + 1 := by simp
  unfold blackBoxAppend
  simp only [hlen]
  by_cases h60 : buf.length + 1 ≤ 60
  · have hz : buf.length + 1 - 60 = 0 := by omega
    rw [hz, List.drop_zero, hlen]
    by_cases hM : maxChunks cfg < buf.length + 1
    · rw [if_pos hM]
      have hd : buf.length + 1 - bbCapacity cfg = 1 := by omega
      rw [hd]
    · rw [if_neg hM]
      have hd : buf.length + 1 - bbCapacity cfg = 0 := by omega
      rw [hd, List.drop_zero]
  · have h1 : buf.length + 1 - 60 = 1 := by omega
    rw [h1]
    have hlen2 : ((buf ++ [a]).drop 1).length = buf.length := by
      rw [List.length_drop, hlen]; omega
    rw [hlen2]
    have hM : ¬ maxChunks cfg < buf.length := by omega
    rw [if_neg hM]
    have hd : buf.length + 1 - bbCapacity cfg = 1 := by omega
    rw [hd]

lemma blackBoxAppendAll_drop {α : Type} (cfg : EngineCfg) (l : List α) :
    ∀ buf : List α, buf.length ≤ bbCapacity cfg →
      blackBoxAppendAll cfg buf l
        = (buf ++ l).drop (buf.length + l.length - bbCapacity cfg) := by
  induction l with
  | nil =>
    intro buf h
    simp only [blackBoxAppendAll, List.foldl_nil, List.append_nil,
      List.length_nil, Nat.add_zero]
    rw [show buf.length - bbCapacity cfg = 0 from by omega, List.drop_zero]
  | cons a t ih =>
    intro buf h
    have hstep := blackBoxAppend_of_le cfg buf a h
    have hlen1 : (buf ++ [a]).length = buf.length + 1 := by simp
    have hsle : ((buf ++ [a]).drop
        (buf.length + 1 - bbCapacity cfg)).length ≤ bbCapacity cfg := by
      rw [List.length_drop, hlen1]; omega
    have hfold : blackBoxAppendAll cfg buf (a :: t)
        = blackBoxAppendAll cfg (blackBoxAppend cfg buf a) t := by
      rw [blackBoxAppendAll, blackBoxAppendAll, List.foldl_cons]
    rw [hfold, hstep, ih _ hsle, List.length_drop, hlen1]
    have hdle : buf.length + 1 - bbCapacity cfg ≤ (buf ++ [a]).length := by
      rw [hlen1]; omega
    rw [← List.drop_append_of_le_length hdle, List.drop_drop]
    have hidx : buf.length + 1 - bbCapacity cfg +
          (buf.length + 1 - (buf.length + 1 - bbCapacity cfg) + t.length
            - bbCapacity cfg)
        = buf.length + (a :: t).length - bbCapacity cfg := by
      simp only [List.length_cons]
      omega
    rw [hidx, List.append_assoc, List.singleton_append]

/-- C4 (amended): the black-box buffer is a bounded FIFO whose effective
capacity is `K = min(60, int(blackBoxSeconds * sample_rate / frame_size))`
— the `collections.deque(maxlen=60)` hard cap combined with the analysis
loop's explicit `max_chunks` trim.  For every sequence of `K+1` appends
into an empty buffer, the buffer afterwards holds exactly `K` frames: the
oldest appended frame has been evicted and no other frame removed. -/
theorem black_box_fifo_eviction {α : Type} (cfg : EngineCfg) (l : List α)
    (hlen : l.length = bbCapacity cfg + 1) :
    blackBoxAppendAll cfg [] l = l.drop 1 ∧
    (blackBoxAppendAll cfg [] l).length = bbCapacity cfg := by
  have h := blackBoxAppendAll_drop cfg l [] (by simp)
  rw [List.nil_append, List.length_nil, hlen] at h
  have hd : 0 + (bbCapacity cfg + 1) - bbCapacity cfg = 1 := by omega
  rw [hd] at h
  refine ⟨h, ?_⟩
  rw [h, List.length_drop, hlen]
  omega

/-- Witness for C4 (amended) at the engine's default configuration
(48 kHz, buffer 4096, 60 s), where the effective capacity is
`min(60, int(60 * 48000/4096)) = min(60, 703) = 60`: 61 appends keep
exactly the last 60 frames. -/
theorem black_box_fifo_eviction_witness :
    (List.range (bbCapacity defaultCfg + 1)).length
        = bbCapacity defaultCfg + 1 ∧
    blackBoxAppendAll defaultCfg [] (List.range (bbCapacity defaultCfg + 1))
        = (List.range (bbCapacity defaultCfg + 1)).drop 1 ∧
    (blackBoxAppendAll defaultCfg []
        (List.range (bbCapacity defaultCfg + 1))).length
      = bbCapacity defaultCfg :=
  ⟨List.length_range _,
    black_box_fifo_eviction defaultCfg _ (List.length_range _)⟩

/-- Counterexample to C4 as stated: the spec's capacity for the default
configuration is `K = ceil(60 * 48000 / 4096) = 704`, so after `K + 1`
appends the buffer should hold 704 frames; the code's buffer (deque
`maxlen=60`) holds only 60. -/
theorem black_box_capacity_counterexample :
    specCapacityCeil defaultCfg = 704 ∧
    (blackBoxAppendAll defaultCfg []
        (List.range (specCapacityCeil defaultCfg + 1))).length = 60 ∧
    (blackBoxAppendAll defaultCfg []
        (List.range (specCapacityCeil defaultCfg + 1))).length
      ≠ specCapacityCeil defaultCfg := by
  have hspec : specCapacityCeil defaultCfg = 704 := by
    rw [specCapacityCeil]
    have hc : (⌈((defaultCfg.black_box_seconds * defaultCfg.input_rate : ℕ) : ℚ)
        / (defaultCfg.buffer_size : ℚ)⌉ : ℤ) = 704 := by
      rw [Int.ceil_eq_iff]
      constructor <;> norm_num [defaultCfg]
    rw [hc]; rfl
  have hK : bbCapacity defaultCfg = 60 := by
    rw [bbCapacity, maxChunks, pyInt, if_pos (by norm_num [defaultCfg])]
    have hf : (⌊(defaultCfg.black_box_seconds : ℚ) *
        ((defaultCfg.input_rate : ℚ) / (defaultCfg.buffer_size : ℚ))⌋ : ℤ)
          = 703 := by
      rw [Int.floor_eq_iff]
      constructor <;> norm_num [defaultCfg]
    rw [hf]; rfl
  have hlen60 : (blackBoxAppendAll defaultCfg []
      (List.range (specCapacityCeil defaultCfg + 1))).length = 60 := by
    have h := blackBoxAppendAll_drop defaultCfg
      (List.range (specCapacityCeil defaultCfg + 1)) [] (by simp)
    rw [List.nil_append, List.length_nil] at h
    rw [h, List.length_drop, List.length_range, hspec, hK]
  exact ⟨hspec, hlen60, by rw [hlen60, hspec]; norm_num⟩

/-! ## Helper lemmas: resampler -/

lemma linspace_length (stop : ℚ) (num : ℕ) :
    (linspace stop num).length = num := by
  unfold linspace
  split
  · rw [List.length_map, List.length_range]
  · rw [List.length_map, List.length_range]

lemma clip16_bounds (q : ℚ) : -32768 ≤ clip16 q ∧ clip16 q ≤ 32767 := by
  unfold clip16
  exact ⟨le_min (le_max_right _ _) (by norm_num), min_le_right _ _⟩

lemma pyInt_bounds (q : ℚ) (h1 : -32768 ≤ q) (h2 : q ≤ 32767) :
    -32768 ≤ pyInt q ∧ pyInt q ≤ 32767 := by
  unfold pyInt
  split
  case isTrue h =>
    refine ⟨?_, ?_⟩
    · have h0 : (0 : ℤ) ≤ ⌊q⌋ := Int.floor_nonneg.mpr h
      omega
    · have hu : ⌊q⌋ ≤ ⌊(32767 : ℚ)⌋ := Int.floor_le_floor h2
      simpa using hu
  case isFalse h =>
    push_neg at h
    refine ⟨?_, ?_⟩
    · have hl : ⌈(-32768 : ℚ)⌉ ≤ ⌈q⌉ := Int.ceil_le_ceil h1
      simpa using hl
    · have h0 : ⌈q⌉ ≤ (0 : ℤ) := Int.ceil_le.mpr (by push_cast; exact h.le)
      omega

lemma astypeInt16_clip16_range (q : ℚ) :
    -32768 ≤ astypeInt16 (clip16 q) ∧ astypeInt16 (clip16 q) ≤ 32767 := by
  obtain ⟨h1, h2⟩ := clip16_bounds q
  obtain ⟨h3, h4⟩ := pyInt_bounds _ h1 h2
  unfold astypeInt16 wrapInt16
  omega

lemma resampleInterp_multi (channels : ℕ) (ratio : ℚ) (input : List ℤ)
    (h : 1 < channels) :
    resampleInterp channels ratio input
      = (((linspace (((input.length / channels : ℕ) : ℚ) - 1)
            ((pyInt (((input.length / channels : ℕ) : ℚ) * ratio)).toNat)).map
          (fun t => (List.range channels).map (fun ch =>
            interp1 (channelColumn channels (input.length / channels) input
              ch) t))).flatten).map
        (fun q => astypeInt16 (clip16 q)) := by
  simp only [resampleInterp]
  rw [if_pos h]

lemma resampleInterp_mono (channels : ℕ) (ratio : ℚ) (input : List ℤ)
    (h : ¬ 1 < channels) :
    resampleInterp channels ratio input
      = ((linspace ((input.length : ℚ) - 1)
            ((pyInt ((input.length : ℚ) * ratio)).toNat)).map
          (interp1 (input.map (fun z => (z : ℚ))))).map
        (fun q => astypeInt16 (clip16 q)) := by
  simp only [resampleInterp]
  rw [if_neg h]

lemma resampleInterp_length (channels : ℕ) (ratio : ℚ) (input : List ℤ)
    (hch : 1 ≤ channels) :
    (resampleInterp channels ratio input).length
      = channels *
        (pyInt (((input.length / channels : ℕ) : ℚ) * ratio)).toNat := by
  by_cases h : 1 < channels
  · rw [resampleInterp_multi channels ratio input h, List.length_map,
      List.length_flatten, List.map_map]
    have hrow : ((linspace (((input.length / channels : ℕ) : ℚ) - 1)
          ((pyInt (((input.length / channels : ℕ) : ℚ) * ratio)).toNat)).map
        (List.length ∘ fun t => (List.range channels).map (fun ch =>
          interp1 (channelColumn channels (input.length / channels) input
            ch) t)))
        = (linspace (((input.length / channels : ℕ) : ℚ) - 1)
            ((pyInt (((input.length / channels : ℕ) : ℚ) * ratio)).toNat)).map
          (fun _ => channels) := by
      apply List.map_congr_left
      intro t _
      simp
    rw [hrow, List.map_const', List.sum_replicate, smul_eq_mul,
      linspace_length, Nat.mul_comm]
  · have hc1 : channels = 1 := by omega
    rw [resampleInterp_mono channels ratio input h, List.length_map,
      List.length_map, linspace_length, hc1, Nat.div_one, Nat.one_mul]

lemma resampleInterp_range (channels : ℕ) (ratio : ℚ) (input : List ℤ) :
    ∀ s ∈ resampleInterp channels ratio input,
      -32768 ≤ s ∧ s ≤ 32767 := by
  intro s hs
  by_cases h : 1 < channels
  · rw [resampleInterp_multi channels ratio input h] at hs
    obtain ⟨q, _, rfl⟩ := List.mem_map.mp hs
    exact astypeInt16_clip16_range q
  · rw [resampleInterp_mono channels ratio input h] at hs
    obtain ⟨q, _, rfl⟩ := List.mem_map.mp hs
    exact astypeInt16_clip16_range q

lemma pyInt_toNat_round_abs (n : ℕ) (r : ℚ) (hr : 0 < r) :
    |(((pyInt ((n : ℚ) * r)).toNat : ℤ)) - round ((n : ℚ) * r)| ≤ 1 := by
  have hnn : 0 ≤ (n : ℚ) * r := mul_nonneg (Nat.cast_nonneg n) hr.le
  rw [pyInt, if_pos hnn, Int.toNat_of_nonneg (Int.floor_nonneg.mpr hnn),
    round_eq]
  have h1 : ⌊(n : ℚ) * r⌋ ≤ ⌊(n : ℚ) * r + 1 / 2⌋ :=
    Int.floor_le_floor (by linarith)
  have h2 : ⌊(n : ℚ) * r + 1 / 2⌋ ≤ ⌊(n : ℚ) * r⌋ + 1 := by
    have h3 := Int.floor_le_floor
      (show (n : ℚ) * r + 1 / 2 ≤ (n : ℚ) * r + 1 by linarith)
    rwa [Int.floor_add_one] at h3
  exact abs_le.mpr ⟨by omega, by omega⟩

/-- C5: for every interleaved int16 buffer (non-empty, with a whole
number of frames) and every ratio `r > 0`, `r ≠ 1`, the resampler output
holds, per channel, `int(numFrames * r)` samples — within ±1 of
`round(numFrames * r)` — and every output sample lies in the int16 range
`[-32768, 32767]`: interpolated values are clipped before the int16 cast,
so the cast's wraparound never engages. -/
theorem resample_length_and_range (channels : ℕ) (ratio : ℚ)
    (input : List ℤ) (hch : 1 ≤ channels) (hdvd : channels ∣ input.length)
    (hne : input ≠ []) (hr : 0 < ratio) (hr1 : ratio ≠ 1) :
    (resampleInterp channels ratio input).length
        = channels *
          (pyInt (((input.length / channels : ℕ) : ℚ) * ratio)).toNat ∧
    |(((pyInt (((input.length / channels : ℕ) : ℚ) * ratio)).toNat : ℤ))
        - round (((input.length / channels : ℕ) : ℚ) * ratio)| ≤ 1 ∧
    ∀ s ∈ resampleInterp channels ratio input,
      -32768 ≤ s ∧ s ≤ 32767 :=
  ⟨resampleInterp_length channels ratio input hch,
    pyInt_toNat_round_abs (input.length / channels) ratio hr,
    resampleInterp_range channels ratio input⟩

/-- Witness for C5: a stereo buffer of two frames resampled at ratio
1/2. -/
theorem resample_length_and_range_witness :
    ((1 : ℕ) ≤ 2) ∧ ((2 : ℕ) ∣ ([(1 : ℤ), 2, 3, 4]).length) ∧
    (([(1 : ℤ), 2, 3, 4]) ≠ []) ∧ ((0 : ℚ) < 1 / 2) ∧ ((1 / 2 : ℚ) ≠ 1) ∧
    ((resampleInterp 2 (1 / 2) [1, 2, 3, 4]).length
        = 2 * (pyInt (((([(1 : ℤ), 2, 3, 4]).length / 2 : ℕ) : ℚ)
            * (1 / 2))).toNat ∧
      |(((pyInt (((([(1 : ℤ), 2, 3, 4]).length / 2 : ℕ) : ℚ)
            * (1 / 2))).toNat : ℤ))
          - round (((([(1 : ℤ), 2, 3, 4]).length / 2 : ℕ) : ℚ) * (1 / 2))|
        ≤ 1 ∧
      ∀ s ∈ resampleInterp 2 (1 / 2) [1, 2, 3, 4],
        -32768 ≤ s ∧ s ≤ 32767) :=
  ⟨by decide, by decide, by decide, by norm_num, by norm_num,
    resample_length_and_range 2 (1 / 2) [1, 2, 3, 4] (by decide) (by decide)
      (by decide) (by norm_num) (by norm_num)⟩

/-- C6: a resample ratio of exactly 1.0 is a byte-identical passthrough —
the raw captured frame is written unchanged and the interpolation path is
never entered. -/
theorem resample_ratio_one_passthrough (channels : ℕ) (raw : List ℤ) :
    processFrame channels 1 raw = raw := by
  simp [processFrame]

/-! ## Helper lemmas: identification fold -/

lemma foldl_identStep_spec (ts : List (String × ℚ)) :
    ∀ acc : String × ℚ,
      acc.2 ≤ (ts.foldl identStep acc).2 ∧
      (∀ u ∈ ts, u.2 ≤ (ts.foldl identStep acc).2) ∧
      ((ts.foldl identStep acc = acc ∧ ∀ u ∈ ts, u.2 ≤ acc.2) ∨
        (∃ l₁ u l₂, ts = l₁ ++ u :: l₂ ∧ ts.foldl identStep acc = u ∧
          acc.2 < u.2 ∧ ∀ v ∈ l₁, v.2 < u.2)) := by
  induction ts with
  | nil =>
    intro acc
    exact ⟨le_refl _, by simp, Or.inl ⟨rfl, by simp⟩⟩
  | cons a t ih =>
    intro acc
    by_cases ha : a.2 > acc.2
    · have hstep : identStep acc a = a := by rw [identStep, if_pos ha]
      have hfold : (a :: t).foldl identStep acc = t.foldl identStep a := by
        rw [List.foldl_cons, hstep]
      obtain ⟨ih1, ih2, ih3⟩ := ih a
      refine ⟨?_, ?_, ?_⟩
      · rw [hfold]; exact le_trans ha.le ih1
      · intro u hu
        rw [hfold]
        rcases List.mem_cons.mp hu with rfl | hu
        · exact ih1
        · exact ih2 u hu
      · rcases ih3 with ⟨heq, hall⟩ | ⟨l₁, u, l₂, hts, heq, hlt, hsmall⟩
        · refine Or.inr ⟨[], a, t, by simp, ?_, ha, by simp⟩
          rw [hfold, heq]
        · refine Or.inr ⟨a :: l₁, u, l₂, by rw [hts]; rfl, ?_, ?_, ?_⟩
          · rw [hfold, heq]
          · exact lt_trans ha hlt
          · intro v hv
            rcases List.mem_cons.mp hv with rfl | hv
            · exact hlt
            · exact hsmall v hv
    · have hstep : identStep acc a = acc := by rw [identStep, if_neg ha]
      have hfold : (a :: t).foldl identStep acc = t.foldl identStep acc := by
        rw [List.foldl_cons, hstep]
      push_neg at ha
      obtain ⟨ih1, ih2, ih3⟩ := ih acc
      refine ⟨?_, ?_, ?_⟩
      · rw [hfold]; exact ih1
      · intro u hu
        rw [hfold]
        rcases List.mem_cons.mp hu with rfl | hu
        · exact le_trans ha ih1
        · exact ih2 u hu
      · rcases ih3 with ⟨heq, hall⟩ | ⟨l₁, u, l₂, hts, heq, hlt, hsmall⟩
        · refine Or.inl ⟨?_, ?_⟩
          · rw [hfold, heq]
          · intro u hu
            rcases List.mem_cons.mp hu with rfl | hu
            · exact ha
            · exact hall u hu
        · refine Or.inr ⟨a :: l₁, u, l₂, by rw [hts]; rfl, ?_, hlt, ?_⟩
          · rw [hfold, heq]
          · intro v hv
            rcases List.mem_cons.mp hv with rfl | hv
            · exact lt_of_le_of_lt ha hlt
            · exact hsmall v hv

/-- C7 (amended): over the scored `(name, score)` pairs (cosine scores of
non-negative spectra, hence non-negative), the loop keeps the maximum
score; *when that maximum is strictly positive* it also keeps the name of
the first template attaining it (every earlier template scores strictly
lower, so ties go to the first in insertion order); a positive match
(`some name`) is reported exactly when the kept score strictly exceeds
the threshold, whose default is 0.85.  When the maximum score is 0 the
kept name is the placeholder initialiser, not a template name. -/
theorem identification_keeps_max (templates : List (String × ℚ))
    (threshold : ℚ) (hne : templates ≠ [])
    (hnn : ∀ u ∈ templates, 0 ≤ u.2) :
    (∀ u ∈ templates, u.2 ≤ (run_identification templates).2) ∧
    (∃ u ∈ templates, (run_identification templates).2 = u.2) ∧
    (0 < (run_identification templates).2 →
      ∃ l₁ u l₂, templates = l₁ ++ u :: l₂ ∧
        run_identification templates = u ∧ ∀ v ∈ l₁, v.2 < u.2) ∧
    identification_threshold = 85 / 100 ∧
    (threshold < (run_identification templates).2 →
      identReport threshold templates
        = some (run_identification templates).1) ∧
    ((run_identification templates).2 ≤ threshold →
      identReport threshold templates = none) := by
  obtain ⟨h1, h2, h3⟩ := foldl_identStep_spec templates ("---", 0)
  refine ⟨h2, ?_, ?_, rfl, ?_, ?_⟩
  · rcases h3 with ⟨heq, hall⟩ | ⟨l₁, u, l₂, hts, heq, hlt, hsmall⟩
    · obtain ⟨u, hu⟩ := List.exists_mem_of_ne_nil templates hne
      refine ⟨u, hu, ?_⟩
      rw [run_identification, heq]
      exact (le_antisymm (hall u hu) (hnn u hu)).symm
    · refine ⟨u, ?_, ?_⟩
      · rw [hts]; exact List.mem_append_right l₁ (List.mem_cons_self u l₂)
      · rw [run_identification, heq]
  · intro hpos
    rcases h3 with ⟨heq, hall⟩ | ⟨l₁, u, l₂, hts, heq, hlt, hsmall⟩
    · rw [run_identification, heq] at hpos
      norm_num at hpos
    · exact ⟨l₁, u, l₂, hts, by rw [run_identification, heq], hsmall⟩
  · intro hgt
    rw [identReport, if_pos hgt]
  · intro hle
    rw [identReport, if_neg (not_lt.mpr hle)]

/-- Witness for C7 (amended): two templates with equal positive scores
9/10 against the default threshold — the first one wins and is
reported. -/
theorem identification_keeps_max_witness :
    (([(("a" : String), (9 / 10 : ℚ)), ("b", 9 / 10)]) ≠ []) ∧
    (∀ u ∈ [(("a" : String), (9 / 10 : ℚ)), ("b", 9 / 10)], 0 ≤ u.2) ∧
    ((∀ u ∈ [(("a" : String), (9 / 10 : ℚ)), ("b", 9 / 10)],
        u.2 ≤ (run_identification
          [(("a" : String), (9 / 10 : ℚ)), ("b", 9 / 10)]).2) ∧
      (∃ u ∈ [(("a" : String), (9 / 10 : ℚ)), ("b", 9 / 10)],
        (run_identification
          [(("a" : String), (9 / 10 : ℚ)), ("b", 9 / 10)]).2 = u.2) ∧
      (0 < (run_identification
          [(("a" : String), (9 / 10 : ℚ)), ("b", 9 / 10)]).2 →
        ∃ l₁ u l₂,
          ([(("a" : String), (9 / 10 : ℚ)), ("b", 9 / 10)])
              = l₁ ++ u :: l₂ ∧
          run_identification
              [(("a" : String), (9 / 10 : ℚ)), ("b", 9 / 10)] = u ∧
          ∀ v ∈ l₁, v.2 < u.2) ∧
      identification_threshold = 85 / 100 ∧
      (identification_threshold < (run_identification
          [(("a" : String), (9 / 10 : ℚ)), ("b", 9 / 10)]).2 →
        identReport identification_threshold
            [(("a" : String), (9 / 10 : ℚ)), ("b", 9 / 10)]
          = some (run_identification
              [(("a" : String), (9 / 10 : ℚ)), ("b", 9 / 10)]).1) ∧
      ((run_identification
            [(("a" : String), (9 / 10 : ℚ)), ("b", 9 / 10)]).2
          ≤ identification_threshold →
        identReport identification_threshold
            [(("a" : String), (9 / 10 : ℚ)), ("b", 9 / 10)] = none)) :=
  ⟨by simp, by intro u hu; fin_cases hu <;> norm_num,
    identification_keeps_max [("a", 9 / 10), ("b", 9 / 10)]
      identification_threshold (by simp)
      (by intro u hu; fin_cases hu <;> norm_num)⟩

/-- Counterexample to C7 as stated: the single scored template
`("a", 0)` (score 0 is reachable — the cosine score of spectra with
disjoint support).  Its maximum score 0 is attained by `"a"`, yet the
loop keeps the placeholder `"---"`: the strict `score > highest_score`
comparison against the initial `highest_score = 0` never fires, so the
maximum's *name* is not kept. -/
theorem identification_zero_score_counterexample :
    run_identification [("a", 0)] = ("---", 0) ∧
    ("---" : String) ≠ "a" := by
  constructor
  · rfl
  · decide

/-! ## Helper lemmas: list maxima and z-scores -/

lemma le_foldl_max (l : List ℝ) (a : ℝ) : a ≤ l.foldl max a := by
  induction l generalizing a with
  | nil => simp
  | cons b t ih => exact le_trans (le_max_left a b) (ih (max a b))

lemma mem_le_foldl_max (l : List ℝ) (a : ℝ) : ∀ v ∈ l, v ≤ l.foldl max a := by
  induction l generalizing a with
  | nil => simp
  | cons b t ih =>
    intro v hv
    rcases List.mem_cons.mp hv with rfl | hv
    · exact le_trans (le_max_right a v) (le_foldl_max t (max a v))
    · exact ih (max a b) v hv

lemma foldl_max_mem (l : List ℝ) (a : ℝ) :
    l.foldl max a = a ∨ l.foldl max a ∈ l := by
  induction l generalizing a with
  | nil => simp
  | cons b t ih =>
    rcases ih (max a b) with h | h
    · rcases max_choice a b with hm | hm
      · left; rw [List.foldl_cons, h, hm]
      · right; rw [List.foldl_cons, h, hm]; exact List.mem_cons_self b t
    · right; exact List.mem_cons_of_mem b h

lemma npMax_mem (l : List ℝ) (h : l ≠ []) : npMax l ∈ l := by
  cases l with
  | nil => exact absurd rfl h
  | cons a t =>
    show t.foldl max a ∈ a :: t
    rcases foldl_max_mem t a with h1 | h1
    · rw [h1]; exact List.mem_cons_self a t
    · exact List.mem_cons_of_mem a h1

lemma le_npMax (l : List ℝ) (v : ℝ) (hv : v ∈ l) : v ≤ npMax l := by
  cases l with
  | nil => simp at hv
  | cons a tl =>
    show v ≤ tl.foldl max a
    rcases List.mem_cons.mp hv with rfl | hv
    · exact le_foldl_max tl v
    · exact mem_le_foldl_max tl a v hv

lemma npMax_lt_iff (l : List ℝ) (h : l ≠ []) (t : ℝ) :
    t < npMax l ↔ ∃ v ∈ l, t < v := by
  constructor
  · intro ht; exact ⟨npMax l, npMax_mem l h, ht⟩
  · rintro ⟨v, hv, htv⟩; exact lt_of_lt_of_le htv (le_npMax l v hv)

lemma zScores_length (p : SignalProcessor) (x : List ℝ)
    (hm : x.length = p.noise_mean.length)
    (hs : x.length = p.noise_std.length) :
    (p.zScores x).length = x.length := by
  simp [SignalProcessor.zScores, ← hm, ← hs]

lemma zScores_getD (p : SignalProcessor) (x : List ℝ)
    (hm : x.length = p.noise_mean.length)
    (hs : x.length = p.noise_std.length)
    (i : ℕ) (hi : i < x.length) :
    (p.zScores x).getD i 0
      = (x.getD i 0 - p.noise_mean.getD i 0) / p.noise_std.getD i 0 := by
  have h1 : i < (p.zScores x).length := by
    rw [zScores_length p x hm hs]; exact hi
  rw [List.getD_eq_getElem _ _ h1, List.getD_eq_getElem _ _ hi,
    List.getD_eq_getElem _ _ (hm ▸ hi), List.getD_eq_getElem _ _ (hs ▸ hi)]
  simp [SignalProcessor.zScores]

/-- C2: `detect_anomaly` is `False` on an uncalibrated processor, and on a
calibrated one holds exactly when some bin's z-score
`(value - mean) / std` strictly exceeds the threshold — equivalently,
when the maximum z-score does. -/
theorem detect_anomaly_spec (p : SignalProcessor) (x : List ℝ) (t : ℝ)
    (hm : x.length = p.noise_mean.length)
    (hs : x.length = p.noise_std.length)
    (hne : x ≠ []) :
    (p.is_calibrated = false → ¬ p.detect_anomaly x t) ∧
    (p.is_calibrated = true →
      (p.detect_anomaly x t ↔
        ∃ i, i < x.length ∧
          t < (x.getD i 0 - p.noise_mean.getD i 0) / p.noise_std.getD i 0)) := by
  constructor
  · intro h hd
    rw [SignalProcessor.detect_anomaly, h] at hd
    simp at hd
  · intro h
    have hzlen : (p.zScores x).length = x.length := zScores_length p x hm hs
    have hzne : p.zScores x ≠ [] := by
      intro hemp
      rw [hemp] at hzlen
      exact hne (List.length_eq_zero.mp hzlen.symm)
    rw [SignalProcessor.detect_anomaly, h]
    simp only [if_true]
    rw [gt_iff_lt, npMax_lt_iff _ hzne t]
    constructor
    · rintro ⟨v, hv, htv⟩
      obtain ⟨i, hiz, rfl⟩ := List.mem_iff_getElem.mp hv
      have hix : i < x.length := by rw [← hzlen]; exact hiz
      refine ⟨i, hix, ?_⟩
      rw [← zScores_getD p x hm hs i hix, List.getD_eq_getElem _ _ hiz]
      exact htv
    · rintro ⟨i, hix, hti⟩
      have hiz : i < (p.zScores x).length := by rw [hzlen]; exact hix
      refine ⟨(p.zScores x).getD i 0, ?_, ?_⟩
      · rw [List.getD_eq_getElem _ _ hiz]
        exact List.getElem_mem hiz
      · rw [zScores_getD p x hm hs i hix]; exact hti

/-- Witness for C2 at the calibrated processor with `noise_mean = [0]`,
`noise_std = [1]`, the spectrum `[5]` and threshold 3. -/
theorem detect_anomaly_spec_witness :
    (([(5 : ℝ)]).length = ([(0 : ℝ)]).length) ∧ (([(5 : ℝ)] : List ℝ) ≠ []) ∧
    (((SignalProcessor.mk 1 [0] [1] true (1 / 10) (3 / 2)).is_calibrated
          = false →
        ¬ (SignalProcessor.mk 1 [0] [1] true (1 / 10)
            (3 / 2)).detect_anomaly [5] 3) ∧
      ((SignalProcessor.mk 1 [0] [1] true (1 / 10) (3 / 2)).is_calibrated
          = true →
        ((SignalProcessor.mk 1 [0] [1] true (1 / 10)
              (3 / 2)).detect_anomaly [5] 3 ↔
          ∃ i, i < ([(5 : ℝ)]).length ∧
            (3 : ℝ) < (([(5 : ℝ)]).getD i 0 - ([(0 : ℝ)]).getD i 0)
              / ([(1 : ℝ)]).getD i 0))) :=
  ⟨rfl, by simp,
    detect_anomaly_spec (SignalProcessor.mk 1 [0] [1] true (1 / 10) (3 / 2))
      [5] 3 rfl rfl (by simp)⟩

/-- C8: with the default tuning constants (oversubtraction 1.5, spectral
floor 0.1) and a noise mean calibrated from magnitude data (hence
non-negative), applying the gate twice never increases any bin over
applying it once. -/
theorem spectral_gate_twice_le
    (p : SignalProcessor) (x : List ℝ)
    (hcal : p.is_calibrated = true)
    (hmean : ∀ m ∈ p.noise_mean, 0 ≤ m)
    (hosd : p.oversubtraction = 3 / 2)
    (hsfd : p.spectral_floor = 1 / 10)
    (hx : ∀ v ∈ x, 0 ≤ v)
    (hlen : x.length = p.noise_mean.length) :
    ∀ i, i < x.length →
      (p.apply_spectral_gate (p.apply_spectral_gate x)).getD i 0
        ≤ (p.apply_spectral_gate x).getD i 0 := by
  intro i hi
  have hy : (p.apply_spectral_gate x).length = x.length :=
    gate_length p x hcal hlen
  have hynn : ∀ v ∈ p.apply_spectral_gate x, 0 ≤ v :=
    gate_nonneg p x hcal (by rw [hsfd]; norm_num) hx hlen
  exact gate_le_self p _ hcal hmean (by rw [hosd]; norm_num)
    (by rw [hsfd]; norm_num) hynn (by rw [hy, hlen]) i (by rw [hy]; exact hi)

/-- Witness for C8 at the calibrated processor with `noise_mean = [0, 1]`
and the spectrum `[2, 3]`. -/
theorem spectral_gate_twice_le_witness :
    ((SignalProcessor.mk 2 [0, 1] [1, 1] true (1 / 10) (3 / 2)).is_calibrated
        = true) ∧
    (∀ m ∈ [(0 : ℝ), 1], 0 ≤ m) ∧ (∀ v ∈ [(2 : ℝ), 3], 0 ≤ v) ∧
    ∀ i, i < ([(2 : ℝ), 3]).length →
      ((SignalProcessor.mk 2 [0, 1] [1, 1] true (1 / 10)
            (3 / 2)).apply_spectral_gate
          ((SignalProcessor.mk 2 [0, 1] [1, 1] true (1 / 10)
              (3 / 2)).apply_spectral_gate [2, 3])).getD i 0
        ≤ ((SignalProcessor.mk 2 [0, 1] [1, 1] true (1 / 10)
              (3 / 2)).apply_spectral_gate [2, 3]).getD i 0 :=
  ⟨rfl, by intro m hm; fin_cases hm <;> norm_num,
    by intro v hv; fin_cases hv <;> norm_num,
    spectral_gate_twice_le
      (SignalProcessor.mk 2 [0, 1] [1, 1] true (1 / 10) (3 / 2)) [2, 3] rfl
      (by intro m hm; fin_cases hm <;> norm_num) rfl rfl
      (by intro v hv; fin_cases hv <;> norm_num) rfl⟩
